import Mathlib

/-!
Verification development for the `gtf` template-helper catalog (`gtf.go`).

The source is a catalog of stateless template helpers dispatching on the
reflected kind of their dynamic argument, plus three registration operations
(`Inject`, `ForceInject`, `InjectWithPrefix`) that copy the catalog into a
caller-supplied function table.  Each helper relevant to the claims is
embedded below as an executable Lean function translated from `gtf.go`:
machine integers are modelled as `Int`/`Nat` (reflect widens every signed
kind to `int64` and every unsigned kind to `uint64`, so theorems restrict
to those ranges where width matters), Go float64 values are carried as exact
rationals where the affected arithmetic (division by powers of two on
integer inputs) is exact, Go strings are Lean strings and Go `[]rune`
conversion is `String.data`, and a recovered panic that makes a helper
return its zero value is modelled with `Option` (`none` = recovered panic,
zero/nil result).
-/

set_option maxRecDepth 8000

namespace GtfSpec

/-- Model of Go `time.Time` at the precision the claims need: an absolute
instant (nanoseconds; the zero `time.Time` sits at instant 0, so `IsZero`
is `instant = 0`) together with the name of the location used to render
wall-clock time.  `t.In(loc)` keeps the instant and replaces the location. -/
structure GoTime where
  instant : Int
  locName : String
deriving DecidableEq

/-- Dynamic value handed to a helper through `interface{}`.  Constructors
follow the reflect kinds the source dispatches on: `int` covers every signed
integer kind (reflect's `v.Int()` widens to `int64`), `uint` every unsigned
kind (`v.Uint()` widens to `uint64`), `float` the float kinds as an exact
rational, `strSlice` the `[]string` slice kind, `timeVal` a `time.Time`
struct, and `other` any remaining kind (struct, map, pointer, nil, ...). -/
inductive GoValue where
  | str : String → GoValue
  | int : Int → GoValue
  | uint : Nat → GoValue
  | float : ℚ → GoValue
  | boolean : Bool → GoValue
  | timeVal : GoTime → GoValue
  | strSlice : List String → GoValue
  | other : GoValue
deriving DecidableEq

/-- Whether the reflect kind of the value is one of the integer kinds
(`Int*` or `Uint*`), the guard used by `pluralize`, `intcomma`, `ordinal`. -/
def isIntKind : GoValue → Bool
  | .int _ => true
  | .uint _ => true
  | _ => false

/-- Whether the dynamic type is `time.Time` (the `renderTime` type switch). -/
def isTimeKind : GoValue → Bool
  | .timeVal _ => true
  | _ => false

/-- The character a decimal digit prints as (`fmt` `%d` digit); the `% 10`
keeps the definition total. -/
def digitChar (d : Nat) : Char :=
  Char.ofNat (48 + d % 10)

theorem digitChar_mod (n : Nat) : digitChar (n % 10) = digitChar n := by
  unfold digitChar
  congr 1
  omega

/-- Decimal rendering of a natural number, exactly as Go's `fmt` verb `%d`
prints a non-negative integer (most significant digit first, no sign). -/
def natDecimal (n : Nat) : List Char :=
  if h : n < 10 then [digitChar n]
  else natDecimal (n / 10) ++ [digitChar (n % 10)]
termination_by n
decreasing_by exact Nat.div_lt_self (by omega) (by omega)

theorem natDecimal_lt (n : Nat) (h : n < 10) : natDecimal n = [digitChar n] := by
  unfold natDecimal
  simp [h]

theorem natDecimal_ge (n : Nat) (h : 10 ≤ n) :
    natDecimal n = natDecimal (n / 10) ++ [digitChar (n % 10)] := by
  conv_lhs => rw [natDecimal]
  simp [Nat.not_lt.mpr h]

theorem natDecimal_ne_nil (n : Nat) : natDecimal n ≠ [] := by
  by_cases h : n < 10
  · rw [natDecimal_lt n h]; simp
  · rw [natDecimal_ge n (by omega)]; simp

theorem natDecimal_length_le_three (n : Nat) (h : n < 1000) :
    (natDecimal n).length ≤ 3 := by
  by_cases h1 : n < 10
  · rw [natDecimal_lt n h1]; simp
  · by_cases h2 : n < 100
    · rw [natDecimal_ge n (by omega), natDecimal_lt (n / 10) (by omega)]; simp
    · rw [natDecimal_ge n (by omega), natDecimal_ge (n / 10) (by omega),
        natDecimal_lt (n / 10 / 10) (by omega)]
      simp

/-- Go's `fmt.Sprintf("%03d", m)`: the decimal digits of `m`, left-padded
with zeros to width three. -/
def pad3 (m : Nat) : List Char :=
  List.replicate (3 - (natDecimal m).length) '0' ++ natDecimal m

theorem pad3_eq (m : Nat) (h : m < 1000) :
    pad3 m = [digitChar (m / 100), digitChar (m / 10), digitChar m] := by
  by_cases h1 : m < 10
  · have e100 : m / 100 = 0 := by omega
    have e10 : m / 10 = 0 := by omega
    rw [pad3, natDecimal_lt m h1, e100, e10]
    rfl
  · by_cases h2 : m < 100
    · have e100 : m / 100 = 0 := by omega
      rw [pad3, natDecimal_ge m (by omega), natDecimal_lt (m / 10) (by omega),
        digitChar_mod, e100]
      rfl
    · have e1 : m / 10 / 10 = m / 100 := by omega
      rw [pad3, natDecimal_ge m (by omega), natDecimal_ge (m / 10) (by omega),
        natDecimal_lt (m / 10 / 10) (by omega), digitChar_mod, digitChar_mod, e1]
      rfl

theorem pad3_length (m : Nat) (h : m < 1000) : (pad3 m).length = 3 := by
  rw [pad3_eq m h]
  rfl

theorem natDecimal_split1000 (n : Nat) (h : 1000 ≤ n) :
    natDecimal n = natDecimal (n / 1000) ++ pad3 (n % 1000) := by
  rw [pad3_eq _ (Nat.mod_lt _ (by omega))]
  rw [natDecimal_ge n (by omega), natDecimal_ge (n / 10) (by omega),
    natDecimal_ge (n / 10 / 10) (by omega)]
  have e0 : n / 10 / 10 / 10 = n / 1000 := by omega
  have e1 : digitChar (n / 10 / 10 % 10) = digitChar (n % 1000 / 100) := by
    unfold digitChar; congr 1; omega
  have e2 : digitChar (n / 10 % 10) = digitChar (n % 1000 / 10) := by
    unfold digitChar; congr 1; omega
  have e3 : digitChar (n % 10) = digitChar (n % 1000) := by
    unfold digitChar; congr 1; omega
  rw [e0, e1, e2, e3]
  simp [List.append_assoc]

/-- The spec's naive grouping: starting from the right, split off three
digits at a time and join the groups with commas. -/
def groupRight (l : List Char) : List Char :=
  if h : l.length ≤ 3 then l
  else groupRight (l.take (l.length - 3)) ++ ',' :: l.drop (l.length - 3)
termination_by l.length
decreasing_by simp [List.length_take]; omega

theorem groupRight_le (l : List Char) (h : l.length ≤ 3) : groupRight l = l := by
  unfold groupRight
  simp [h]

theorem groupRight_append3 (a b : List Char) (ha : a ≠ []) (hb : b.length = 3) :
    groupRight (a ++ b) = groupRight a ++ ',' :: b := by
  have hlen : (a ++ b).length = a.length + 3 := by simp [hb]
  have hpos : 0 < a.length := List.length_pos.mpr ha
  conv_lhs => rw [groupRight]
  have hgt : ¬ (a ++ b).length ≤ 3 := by omega
  simp only [hgt, dite_false]
  have e : (a ++ b).length - 3 = a.length := by omega
  rw [e, List.take_left, List.drop_left]

/-! ## `intcomma` (claim C5)

Source (`gtf.go`, `"intcomma"`): reflect over the kind; signed kinds set a
minus flag and convert the magnitude to `uint` (on 64-bit Go the conversion
`uint(-v.Int())` yields exactly the absolute value for every `int64`,
including `math.MinInt64`, so the magnitude is modelled as `(-i).toNat`);
unsigned kinds pass through; every other kind returns `""`.  Then the loop
`for x >= 1000 { result = fmt.Sprintf(",%03d%s", x%1000, result); x /= 1000 }`
followed by `result = fmt.Sprintf("%d%s", x, result)`. -/

/-- The comma-insertion loop of `intcomma`, with `acc` the `result` string
built so far. -/
def intcommaLoop (x : Nat) (acc : List Char) : List Char :=
  if h : 1000 ≤ x then intcommaLoop (x / 1000) (',' :: (pad3 (x % 1000) ++ acc))
  else natDecimal x ++ acc
termination_by x
decreasing_by exact Nat.div_lt_self (by omega) (by omega)

theorem intcommaLoop_eq (x : Nat) :
    ∀ acc, intcommaLoop x acc = groupRight (natDecimal x) ++ acc := by
  induction x using Nat.strong_induction_on with
  | _ x ih =>
    intro acc
    by_cases h : 1000 ≤ x
    · have hx : x / 1000 < x := Nat.div_lt_self (by omega) (by omega)
      conv_lhs => rw [intcommaLoop]
      simp only [h, dite_true]
      rw [ih (x / 1000) hx]
      rw [natDecimal_split1000 x h,
        groupRight_append3 _ _ (natDecimal_ne_nil _) (pad3_length _ (Nat.mod_lt _ (by omega)))]
      simp [List.append_assoc]
    · conv_lhs => rw [intcommaLoop]
      simp only [h, dite_false]
      rw [groupRight_le _ (natDecimal_length_le_three x (by omega))]

/-- The `intcomma` helper, translated from the source. -/
def intcomma : GoValue → String
  | .int i =>
      if i < 0 then "-" ++ String.mk (intcommaLoop (-i).toNat [])
      else String.mk (intcommaLoop i.toNat [])
  | .uint n => String.mk (intcommaLoop n [])
  | _ => ""

/-- Formalisation of the spec's naive algorithm: the decimal rendering of the
value with a comma inserted every three digits from the right, and a leading
minus sign exactly when the value is negative. -/
def naiveComma (i : Int) : String :=
  (if i < 0 then "-" else "") ++ String.mk (groupRight (natDecimal i.natAbs))

/-- Claim C5: for every value of a signed integer kind (reflect widens to
`int64`, hence the range bounds) and every value of an unsigned kind
(widened to `uint64`), `intcomma` agrees with the naive
comma-every-three-digits rendering, preserving sign; every non-integer kind
yields the empty string. -/
theorem intcomma_matches_naive :
    (∀ i : Int, -(2 ^ 63) ≤ i → i < 2 ^ 63 → intcomma (.int i) = naiveComma i) ∧
    (∀ n : Nat, n < 2 ^ 64 → intcomma (.uint n) = naiveComma (n : Int)) ∧
    (∀ v : GoValue, isIntKind v = false → intcomma v = "") := by
  refine ⟨fun i _ _ => ?_, fun n _ => ?_, fun v hv => ?_⟩
  · by_cases h : i < 0
    · have e : (-i).toNat = i.natAbs := by omega
      simp only [intcomma, naiveComma, h, if_pos, intcommaLoop_eq, List.append_nil, e]
    · have e : i.toNat = i.natAbs := by omega
      simp only [intcomma, naiveComma, h, if_neg, intcommaLoop_eq, List.append_nil, e]
      rfl
  · have h : ¬ ((n : Int) < 0) := by omega
    have e : (n : Int).natAbs = n := by omega
    simp only [intcomma, naiveComma, h, if_neg, intcommaLoop_eq, List.append_nil, e]
    rfl
  · cases v <;> simp_all [intcomma, isIntKind]

theorem intcomma_matches_naive_witness :
    (-(2 ^ 63) ≤ (-1234567 : Int) ∧ (-1234567 : Int) < 2 ^ 63 ∧
      intcomma (.int (-1234567)) = naiveComma (-1234567)) ∧
    ((1000 : Nat) < 2 ^ 64 ∧ intcomma (.uint 1000) = naiveComma 1000) ∧
    (isIntKind (.str "x") = false ∧ intcomma (.str "x") = "") := by
  refine ⟨⟨by norm_num, by norm_num,
      intcomma_matches_naive.1 (-1234567) (by norm_num) (by norm_num)⟩,
    ⟨by norm_num, intcomma_matches_naive.2.1 1000 (by norm_num)⟩,
    ⟨by decide, intcomma_matches_naive.2.2 (.str "x") (by decide)⟩⟩

/-! ## `ordinal` (claim C8)

Source (`gtf.go`, `"ordinal"`): signed kinds return `""` when negative and
otherwise convert to `uint` (value-preserving for every non-negative
`int64`); unsigned kinds pass through; other kinds return `""`.  Then
`suffixes := [10]string{"th","st","nd","rd","th","th","th","th","th","th"}`,
a switch returning `"th"` when `x % 100` is 11, 12 or 13, and otherwise the
suffix indexed by `x % 10`. -/

def ordSuffixes : List String :=
  ["th", "st", "nd", "rd", "th", "th", "th", "th", "th", "th"]

/-- Core of `ordinal` on the converted unsigned value. -/
def ordinalNat (x : Nat) : String :=
  if x % 100 = 11 ∨ x % 100 = 12 ∨ x % 100 = 13 then
    String.mk (natDecimal x) ++ "th"
  else
    String.mk (natDecimal x) ++ ordSuffixes.getD (x % 10) "th"

/-- The `ordinal` helper, translated from the source. -/
def ordinal : GoValue → String
  | .int i => if i < 0 then "" else ordinalNat i.toNat
  | .uint n => ordinalNat n
  | _ => ""

/-- The suffix rule exactly as the claim words it: `th` whenever the value
mod 100 is 11, 12 or 13, otherwise `st`/`nd`/`rd`/`th` by the last digit. -/
def claimOrdSuffix (n : Nat) : String :=
  if n % 100 = 11 ∨ n % 100 = 12 ∨ n % 100 = 13 then "th"
  else if n % 10 = 1 then "st"
  else if n % 10 = 2 then "nd"
  else if n % 10 = 3 then "rd"
  else "th"

theorem ordinalNat_eq_claim (x : Nat) :
    ordinalNat x = String.mk (natDecimal x) ++ claimOrdSuffix x := by
  unfold ordinalNat claimOrdSuffix
  by_cases h : x % 100 = 11 ∨ x % 100 = 12 ∨ x % 100 = 13
  · simp [h]
  · simp only [h, if_neg, ite_false]
    have h10 : x % 10 < 10 := Nat.mod_lt _ (by norm_num)
    set r := x % 10 with hr
    interval_cases r <;> rfl

/-- Claim C8: non-negative integer-kind values get the English ordinal
suffix (`th` whenever the value mod 100 is 11, 12 or 13, otherwise by the
last digit); negative integers and non-integer kinds yield `""`; and the
spec's concrete examples. -/
theorem ordinal_spec :
    (∀ i : Int, 0 ≤ i →
      ordinal (.int i) = String.mk (natDecimal i.toNat) ++ claimOrdSuffix i.toNat) ∧
    (∀ n : Nat, ordinal (.uint n) = String.mk (natDecimal n) ++ claimOrdSuffix n) ∧
    (∀ i : Int, i < 0 → ordinal (.int i) = "") ∧
    (∀ v : GoValue, isIntKind v = false → ordinal v = "") ∧
    ordinal (.int 11) = "11th" ∧ ordinal (.int 21) = "21st" ∧
    ordinal (.int (-1)) = "" := by
  have e11 : natDecimal 11 = ['1', '1'] := by
    rw [natDecimal_ge 11 (by norm_num), (by norm_num : (11 : Nat) / 10 = 1),
      (by norm_num : (11 : Nat) % 10 = 1), natDecimal_lt 1 (by norm_num)]
    decide
  have e21 : natDecimal 21 = ['2', '1'] := by
    rw [natDecimal_ge 21 (by norm_num), (by norm_num : (21 : Nat) / 10 = 2),
      (by norm_num : (21 : Nat) % 10 = 1), natDecimal_lt 2 (by norm_num)]
    decide
  refine ⟨fun i hi => ?_, fun n => ?_, fun i hi => ?_, fun v hv => ?_, ?_, ?_, ?_⟩
  · simp only [ordinal, if_neg (not_lt.mpr hi)]
    exact ordinalNat_eq_claim _
  · exact ordinalNat_eq_claim n
  · simp [ordinal, hi]
  · cases v <;> simp_all [ordinal, isIntKind]
  · have : ordinal (.int 11) = ordinalNat 11 := rfl
    rw [this, ordinalNat]
    simp only [e11]
    decide
  · have : ordinal (.int 21) = ordinalNat 21 := rfl
    rw [this, ordinalNat]
    simp only [e21]
    decide
  · norm_num [ordinal]

theorem ordinal_spec_witness :
    ((0 : Int) ≤ 21 ∧
      ordinal (.int 21) = String.mk (natDecimal (Int.toNat 21)) ++ claimOrdSuffix (Int.toNat 21)) ∧
    ((-7 : Int) < 0 ∧ ordinal (.int (-7)) = "") ∧
    (isIntKind (.boolean true) = false ∧ ordinal (.boolean true) = "") :=
  ⟨⟨by norm_num, ordinal_spec.1 21 (by norm_num)⟩,
    ⟨by norm_num, ordinal_spec.2.2.1 (-7) (by norm_num)⟩,
    ⟨by decide, ordinal_spec.2.2.2.1 (.boolean true) (by decide)⟩⟩


/-! ## `truncatechars` (claim C4)

Source (`gtf.go`, `"truncatechars"`): `if n < 0 { return s }`; convert to
runes; `if n >= rLength { return s }`; `if n > 3 && rLength > 3 { return
string(r[:n-3]) + "..." }`; `return string(r[:n])`. -/

theorem stringMk_data (s : String) : String.mk s.data = s := rfl

/-- The `truncatechars` helper, translated from the source (`n` is a Go
`int`, so it can be negative; the rune sequence of a Lean string is its
character list). -/
def truncatechars (n : Int) (s : String) : String :=
  if n < 0 then s
  else
    let r := s.data
    if (r.length : Int) ≤ n then s
    else if 3 < n ∧ 3 < (r.length : Int) then String.mk (r.take (n.toNat - 3)) ++ "..."
    else String.mk (r.take n.toNat)

/-- Claim C4: `truncatechars` returns `s` unchanged when `n < 0` or
`n ≥` the rune length; else when `n > 3` (and the rune length exceeds 3) it
keeps the first `n-3` runes and appends `"..."`; else it keeps the first
`n` runes with no ellipsis; and `truncatechars (len s) s = s`. -/
theorem truncatechars_spec :
    (∀ (n : Int) (s : String), n < 0 → truncatechars n s = s) ∧
    (∀ (n : Int) (s : String), (s.length : Int) ≤ n → truncatechars n s = s) ∧
    (∀ (n : Int) (s : String), 3 < n → n < (s.length : Int) →
      3 < (s.length : Int) →
      truncatechars n s = String.mk (s.data.take (n.toNat - 3)) ++ "...") ∧
    (∀ (n : Int) (s : String), 0 ≤ n → n ≤ 3 → n < (s.length : Int) →
      truncatechars n s = String.mk (s.data.take n.toNat)) ∧
    (∀ s : String, truncatechars (s.length : Int) s = s) := by
  have h2 : ∀ (n : Int) (s : String), (s.length : Int) ≤ n →
      truncatechars n s = s := by
    intro n s h
    by_cases hn : n < 0
    · simp [truncatechars, hn]
    · simp [truncatechars, hn, h]
  refine ⟨fun n s h => by simp [truncatechars, h], h2, fun n s h3 hlen hl3 => ?_,
    fun n s h0 h3 hlen => ?_, fun s => h2 _ s le_rfl⟩
  · have hn : ¬ n < 0 := by omega
    have hge : ¬ (s.length : Int) ≤ n := by omega
    simp [truncatechars, hn, hge, h3, hl3]
  · have e : (s.data.length : Int) = (s.length : Int) := rfl
    have hn : ¬ n < 0 := by omega
    have hge : ¬ (s.data.length : Int) ≤ n := by omega
    have hc : ¬ (3 < n ∧ 3 < (s.data.length : Int)) := by omega
    simp only [truncatechars]
    rw [if_neg hn, if_neg hge, if_neg hc]

theorem truncatechars_spec_witness :
    ((3 : Int) < 7 ∧ (7 : Int) < ("abcdefghij".length : Int) ∧
      truncatechars 7 "abcdefghij" =
        String.mk ("abcdefghij".data.take (Int.toNat 7 - 3)) ++ "...") ∧
    truncatechars ("abcdefghij".length : Int) "abcdefghij" = "abcdefghij" :=
  ⟨⟨by norm_num, by decide, truncatechars_spec.2.2.1 7 "abcdefghij" (by norm_num)
      (by decide) (by decide)⟩,
    truncatechars_spec.2.2.2.2 "abcdefghij"⟩

/-! ## `slice` (claim C3)

Source (`gtf.go`, `"slice"`): clamp a negative `start` to 0; on the String
kind clamp `end` to the rune length when it exceeds it and return
`string(str[start:end])`; on the Slice kind return `v.Slice(start, end)`
with Go's bounds check (no clamping of `end`); any other kind returns `""`.
A slice expression whose bounds fail Go's check panics; the blanket
`defer recovery()` turns that panic into a `nil` return, modelled as
`none`. -/

/-- Whether the reflect kind is `String`. -/
def isStrKind : GoValue → Bool
  | .str _ => true
  | _ => false

/-- Whether the reflect kind is `Slice`. -/
def isSliceKind : GoValue → Bool
  | .strSlice _ => true
  | _ => false

/-- The `slice` helper, translated from the source; `none` is the `nil`
that a recovered out-of-range panic produces. -/
def slice (start endv : Int) (v : GoValue) : Option GoValue :=
  let start' := if start < 0 then 0 else start
  match v with
  | .str s =>
      let str := s.data
      let end' := if (str.length : Int) < endv then (str.length : Int) else endv
      if start' ≤ end' then
        some (.str (String.mk ((str.take end'.toNat).drop start'.toNat)))
      else none
  | .strSlice l =>
      if start' ≤ endv ∧ endv ≤ (l.length : Int) then
        some (.strSlice ((l.take endv.toNat).drop start'.toNat))
      else none
  | _ => some (.str "")

/-- Claim C3: a negative `start` is clamped to 0 (for every kind); for a
string an `end` beyond the rune length is clamped to it; within bounds the
result is the rune subsequence `[start, end)`; `slice 0 (len s) s = s`; and
every kind other than String and Slice yields the empty string. -/
theorem slice_spec :
    (∀ (st e : Int) (v : GoValue), st < 0 → slice st e v = slice 0 e v) ∧
    (∀ (st e : Int) (s : String), (s.length : Int) < e →
      slice st e (.str s) = slice st (s.length : Int) (.str s)) ∧
    (∀ (st e : Int) (s : String), 0 ≤ st → st ≤ e → e ≤ (s.length : Int) →
      slice st e (.str s) =
        some (.str (String.mk ((s.data.take e.toNat).drop st.toNat)))) ∧
    (∀ s : String, slice 0 (s.length : Int) (.str s) = some (.str s)) ∧
    (∀ (st e : Int) (v : GoValue), isStrKind v = false → isSliceKind v = false →
      slice st e v = some (.str "")) := by
  refine ⟨fun st e v h => ?_, fun st e s h => ?_, fun st e s h0 hse hel => ?_,
    fun s => ?_, fun st e v h1 h2 => ?_⟩
  · cases v <;> simp [slice, h]
  · simp [slice, h]
  · have hn : ¬ st < 0 := by omega
    have hc : ¬ (s.length : Int) < e := by omega
    simp [slice, hn, hc, hse]
  · have hc : ¬ (s.length : Int) < (s.length : Int) := by omega
    have h0 : (0 : Int) ≤ (s.length : Int) := by omega
    have tl : List.take s.length s.data = s.data := List.take_length _
    simp [slice, hc, h0, tl, stringMk_data]
  · cases v <;> simp_all [slice, isStrKind, isSliceKind]

theorem slice_spec_witness :
    ((0 : Int) ≤ 1 ∧ (1 : Int) ≤ 3 ∧ (3 : Int) ≤ ("hello".length : Int) ∧
      slice 1 3 (.str "hello") =
        some (.str (String.mk (("hello".data.take (Int.toNat 3)).drop (Int.toNat 1))))) ∧
    slice 0 ("hello".length : Int) (.str "hello") = some (.str "hello") ∧
    (isStrKind (.int 5) = false ∧ isSliceKind (.int 5) = false ∧
      slice 0 2 (.int 5) = some (.str "")) :=
  ⟨⟨by norm_num, by norm_num, by decide,
      slice_spec.2.2.1 1 3 "hello" (by norm_num) (by norm_num) (by decide)⟩,
    slice_spec.2.2.2.1 "hello",
    ⟨by decide, by decide, slice_spec.2.2.2.2 0 2 (.int 5) (by decide) (by decide)⟩⟩

/-! ## `pluralize` (claim C6)

Source (`gtf.go`, `"pluralize"`): `flag` is whether the integer-kind value
equals 1 (non-integer kinds return `""`); if `arg` contains no comma it is
prefixed with one (`arg = "," + arg`); `bits := strings.Split(arg, ",")`;
more than two pieces yields `""`; otherwise `bits[0]` when `flag` and
`bits[1]` otherwise. -/

/-- Go's `strings.Split(s, ",")` on the character list of `s` (splitting on
the single character `','`, every piece kept, empty pieces included). -/
def splitComma : List Char → List (List Char)
  | [] => [[]]
  | c :: rest =>
      if c = ',' then [] :: splitComma rest
      else
        match splitComma rest with
        | [] => [[c]]
        | h :: t => (c :: h) :: t

theorem splitComma_ne_nil (l : List Char) : splitComma l ≠ [] := by
  cases l with
  | nil => simp [splitComma]
  | cons c rest =>
    by_cases h : c = ','
    · simp [splitComma, h]
    · simp only [splitComma, h, ite_false]
      cases splitComma rest <;> simp

theorem splitComma_no_comma (l : List Char) (h : ',' ∉ l) : splitComma l = [l] := by
  induction l with
  | nil => rfl
  | cons c rest ih =>
    have hc : ¬ c = ',' := fun hc => h (hc ▸ List.mem_cons_self c rest)
    have hr : ',' ∉ rest := fun hr => h (List.mem_cons_of_mem c hr)
    simp [splitComma, hc, ih hr]

theorem splitComma_append (s p : List Char) (h : ',' ∉ s) :
    splitComma (s ++ ',' :: p) = s :: splitComma p := by
  induction s with
  | nil => simp [splitComma]
  | cons c rest ih =>
    have hc : ¬ c = ',' := fun hc => h (hc ▸ List.mem_cons_self c rest)
    have hr : ',' ∉ rest := fun hr => h (List.mem_cons_of_mem c hr)
    have ih2 : splitComma (List.append rest (',' :: p)) = rest :: splitComma p := ih hr
    simp only [List.cons_append, splitComma, hc, ite_false]
    rw [ih2]

theorem splitComma_length (l : List Char) :
    (splitComma l).length = l.count ',' + 1 := by
  induction l with
  | nil => rfl
  | cons c rest ih =>
    by_cases h : c = ','
    · subst h
      simp [splitComma, ih, List.count_cons]
    · simp only [splitComma, h, ite_false]
      have hne := splitComma_ne_nil rest
      cases hs : splitComma rest with
      | nil => exact absurd hs hne
      | cons a t =>
        rw [hs] at ih
        simp only [List.length_cons] at ih ⊢
        rw [List.count_cons]
        simp [h, ih]

/-- Core of `pluralize` after the integer-kind dispatch (`flag` is
`count == 1`). -/
def pluralizeBits (arg : String) (flag : Bool) : String :=
  let l := arg.data
  let l2 := if ',' ∈ l then l else ',' :: l
  let bits := splitComma l2
  if 2 < bits.length then ""
  else if flag then String.mk (bits.getD 0 [])
  else String.mk (bits.getD 1 [])

/-- The `pluralize` helper, translated from the source. -/
def pluralize (arg : String) (value : GoValue) : String :=
  match value with
  | .int i => pluralizeBits arg (i == 1)
  | .uint n => pluralizeBits arg (n == 1)
  | _ => ""

/-- Claim C6: non-integer kinds yield `""`; more than one comma in `arg`
yields `""`; an `arg` of the shape `singular,plural` (no further commas)
selects the singular exactly when the count is 1, for signed and for
unsigned integer kinds alike; a comma-free `arg` acts as `,arg` (empty
singular), again for both kinds; and the spec's three examples. -/
theorem pluralize_spec :
    (∀ (arg : String) (v : GoValue), isIntKind v = false → pluralize arg v = "") ∧
    (∀ (arg : String) (i : Int), 1 < arg.data.count ',' →
      pluralize arg (.int i) = "") ∧
    (∀ (arg : String) (n : Nat), 1 < arg.data.count ',' →
      pluralize arg (.uint n) = "") ∧
    (∀ (sg pl : String) (i : Int), ',' ∉ sg.data → ',' ∉ pl.data →
      pluralize (sg ++ "," ++ pl) (.int i) = if i = 1 then sg else pl) ∧
    (∀ (sg pl : String) (n : Nat), ',' ∉ sg.data → ',' ∉ pl.data →
      pluralize (sg ++ "," ++ pl) (.uint n) = if n = 1 then sg else pl) ∧
    (∀ (pl : String) (i : Int), ',' ∉ pl.data →
      pluralize pl (.int i) = if i = 1 then "" else pl) ∧
    (∀ (pl : String) (n : Nat), ',' ∉ pl.data →
      pluralize pl (.uint n) = if n = 1 then "" else pl) ∧
    pluralize "apple,apples" (.int 1) = "apple" ∧
    pluralize "apple,apples" (.int 2) = "apples" ∧
    pluralize "x,y,z" (.int 2) = "" := by
  have hbits : ∀ (arg : String), 1 < arg.data.count ',' →
      ∀ flag, pluralizeBits arg flag = "" := by
    intro arg h flag
    have hm : ',' ∈ arg.data := by
      have : 0 < arg.data.count ',' := by omega
      exact List.count_pos_iff.mp this
    have hlen : 2 < (splitComma arg.data).length := by
      rw [splitComma_length]
      omega
    simp [pluralizeBits, hm, hlen]
  have hpair : ∀ (sg pl : String) (flag : Bool), ',' ∉ sg.data → ',' ∉ pl.data →
      pluralizeBits (sg ++ "," ++ pl) flag =
        (if flag then sg else pl) := by
    intro sg pl flag hsg hpl
    have hdata : (sg ++ "," ++ pl).data = sg.data ++ ',' :: pl.data := by
      simp [String.data_append]
    have hm : ',' ∈ (sg ++ "," ++ pl).data := by
      rw [hdata]
      exact List.mem_append_right _ (List.mem_cons_self _ _)
    have hsplit : splitComma (sg.data ++ ',' :: pl.data) = [sg.data, pl.data] := by
      rw [splitComma_append _ _ hsg, splitComma_no_comma _ hpl]
    cases flag <;>
      simp [pluralizeBits, hm, hdata, hsplit, stringMk_data]
  have hsingle : ∀ (pl : String) (flag : Bool), ',' ∉ pl.data →
      pluralizeBits pl flag = (if flag then "" else pl) := by
    intro pl flag hpl
    have hsplit : splitComma (',' :: pl.data) = [[], pl.data] := by
      have := splitComma_append [] pl.data (by simp)
      simpa [splitComma_no_comma _ hpl] using this
    have hmknil : String.mk [] = "" := rfl
    cases flag <;>
      simp [pluralizeBits, hpl, hsplit, stringMk_data, hmknil]
  refine ⟨fun arg v hv => ?_, fun arg i h => hbits arg h _,
    fun arg n h => hbits arg h _, fun sg pl i hsg hpl => ?_,
    fun sg pl n hsg hpl => ?_, fun pl i hpl => ?_, fun pl n hpl => ?_,
    by decide, by decide, by decide⟩
  · cases v <;> simp_all [pluralize, isIntKind]
  · rw [show pluralize (sg ++ "," ++ pl) (.int i) =
        pluralizeBits (sg ++ "," ++ pl) (i == 1) from rfl,
      hpair sg pl _ hsg hpl]
    by_cases h1 : i = 1 <;> simp [h1]
  · rw [show pluralize (sg ++ "," ++ pl) (.uint n) =
        pluralizeBits (sg ++ "," ++ pl) (n == 1) from rfl,
      hpair sg pl _ hsg hpl]
    by_cases h1 : n = 1 <;> simp [h1]
  · rw [show pluralize pl (.int i) = pluralizeBits pl (i == 1) from rfl,
      hsingle pl _ hpl]
    by_cases h1 : i = 1 <;> simp [h1]
  · rw [show pluralize pl (.uint n) = pluralizeBits pl (n == 1) from rfl,
      hsingle pl _ hpl]
    by_cases h1 : n = 1 <;> simp [h1]

theorem pluralize_spec_witness :
    (isIntKind (.float (3 : ℚ)) = false ∧ pluralize "day,days" (.float 3) = "") ∧
    (1 < ("a,b,c" : String).data.count ',' ∧ pluralize "a,b,c" (.int 1) = "") ∧
    ((',' ∉ ("day" : String).data) ∧ (',' ∉ ("days" : String).data) ∧
      pluralize ("day" ++ "," ++ "days") (.int 5) = if (5 : Int) = 1 then "day" else "days") ∧
    ((',' ∉ ("day" : String).data) ∧ (',' ∉ ("days" : String).data) ∧
      pluralize ("day" ++ "," ++ "days") (.uint 1) = if (1 : Nat) = 1 then "day" else "days") ∧
    ((',' ∉ ("days" : String).data) ∧
      pluralize "days" (.uint 2) = if (2 : Nat) = 1 then "" else "days") :=
  ⟨⟨by decide, pluralize_spec.1 "day,days" (.float 3) (by decide)⟩,
    ⟨by decide, pluralize_spec.2.1 "a,b,c" 1 (by decide)⟩,
    ⟨by decide, by decide,
      pluralize_spec.2.2.2.1 "day" "days" 5 (by decide) (by decide)⟩,
    ⟨by decide, by decide,
      pluralize_spec.2.2.2.2.1 "day" "days" 1 (by decide) (by decide)⟩,
    ⟨by decide,
      pluralize_spec.2.2.2.2.2.2.1 "days" 2 (by decide)⟩⟩

/-! ## `filesizeformat` (claim C7)

Source (`gtf.go`, `"filesizeformat"`): integer and float kinds convert to
`float64` (modelled as an exact rational — exact for every integer of
magnitude at most `2^53`, and Go's division by the power-of-two unit
constants is an exact exponent shift); other kinds return `""`.  A chain of
`size < KB/MB/GB/TB/PB` comparisons picks the unit, the scaled size prints
with `fmt.Sprintf("%.1f %s", ...)` (Go's `strconv` rounds the exact value
half-to-even), and `strings.Replace(result, ".0", "", -1)` removes the
`".0"` (whose only possible occurrence is the trailing decimal). -/

theorem digitChar_ne_dot (m : Nat) : digitChar m ≠ '.' := by
  have h : m % 10 < 10 := Nat.mod_lt _ (by norm_num)
  unfold digitChar
  set r := m % 10 with hr
  interval_cases r <;> decide

theorem natDecimal_no_dot (n : Nat) : '.' ∉ natDecimal n := by
  induction n using Nat.strong_induction_on with
  | _ n ih =>
    by_cases h : n < 10
    · rw [natDecimal_lt n h]
      intro hm
      rw [List.mem_singleton] at hm
      exact digitChar_ne_dot n hm.symm
    · rw [natDecimal_ge n (by omega)]
      intro hm
      rcases List.mem_append.mp hm with h1 | h2
      · exact ih (n / 10) (Nat.div_lt_self (by omega) (by omega)) h1
      · rw [List.mem_singleton] at h2
        exact digitChar_ne_dot _ h2.symm

/-- Go `strings.Replace(s, ".0", "", -1)` specialised to the fixed pattern
`".0"`: scan left to right, removing every leftmost non-overlapping
occurrence. -/
def replaceDot0 : List Char → List Char
  | [] => []
  | [c] => [c]
  | c1 :: c2 :: rest =>
      if c1 = '.' ∧ c2 = '0' then replaceDot0 rest
      else c1 :: replaceDot0 (c2 :: rest)

theorem replaceDot0_cons (c : Char) (l : List Char) (hc : c ≠ '.') :
    replaceDot0 (c :: l) = c :: replaceDot0 l := by
  cases l with
  | nil => rfl
  | cons c2 rest =>
    have hcc : ¬ (c = '.' ∧ c2 = '0') := fun hx => hc hx.1
    simp [replaceDot0, hcc]

theorem replaceDot0_no_dot (l : List Char) (h : '.' ∉ l) : replaceDot0 l = l := by
  induction l with
  | nil => rfl
  | cons c rest ih =>
    have hc : c ≠ '.' := fun hc => h (hc ▸ List.mem_cons_self c rest)
    have hr : '.' ∉ rest := fun hr => h (List.mem_cons_of_mem c hr)
    rw [replaceDot0_cons c rest hc, ih hr]

theorem replaceDot0_split (a rest : List Char) (d : Char) (ha : '.' ∉ a)
    (hd : d ≠ '.') (hrest : '.' ∉ rest) :
    replaceDot0 (a ++ '.' :: d :: rest) =
      a ++ (if d = '0' then [] else ['.', d]) ++ rest := by
  induction a with
  | nil =>
    by_cases h0 : d = '0'
    · subst h0
      simp [replaceDot0, replaceDot0_no_dot rest hrest]
    · have hcc : ¬ ('.' = '.' ∧ d = '0') := fun hx => h0 hx.2
      simp only [List.nil_append, replaceDot0, hcc, ite_false]
      rw [replaceDot0_cons d rest hd, replaceDot0_no_dot rest hrest]
      simp [h0]
  | cons c a' ih =>
    have hc : c ≠ '.' := fun hc => ha (hc ▸ List.mem_cons_self c a')
    have ha' : '.' ∉ a' := fun hm => ha (List.mem_cons_of_mem c hm)
    simp only [List.cons_append]
    rw [replaceDot0_cons c _ hc, ih ha']

/-- The claim's trailing-`".0"` strip on the one-decimal number rendering. -/
def stripTrailingDot0 (l : List Char) : List Char :=
  if l.reverse.take 2 = ['0', '.'] then (l.reverse.drop 2).reverse else l

theorem stripTrailingDot0_eq (a : List Char) (d : Char) :
    stripTrailingDot0 (a ++ ['.', d]) = if d = '0' then a else a ++ ['.', d] := by
  unfold stripTrailingDot0
  have hrev : (a ++ ['.', d]).reverse = d :: '.' :: a.reverse := by simp
  rw [hrev]
  by_cases h0 : d = '0'
  · subst h0
    simp
  · have hne : ¬ (List.take 2 (d :: '.' :: a.reverse) = ['0', '.']) := by
      simp [h0]
    rw [if_neg hne, if_neg h0]

/-- Rounding a non-negative rational to an integer the way Go's `strconv`
fixed-precision formatting does: to nearest, ties to the even integer. -/
def halfEven (x : ℚ) : Nat :=
  let fl := (⌊x⌋).toNat
  if 1 / 2 < x - ⌊x⌋ then fl + 1
  else if x - ⌊x⌋ < 1 / 2 then fl
  else if fl % 2 = 0 then fl else fl + 1

/-- Go `fmt.Sprintf("%.1f", q)`: optional sign, the decimal integer part,
and one fractional digit of the correctly rounded (half-to-even) value. -/
def formatFixed1 (q : ℚ) : List Char :=
  let m := halfEven ((if q < 0 then -q else q) * 10)
  ((if q < 0 then ['-'] else []) ++ natDecimal (m / 10)) ++ ['.', digitChar m]

theorem formatFixed1_shape (q : ℚ) :
    ∃ a d, formatFixed1 q = a ++ ['.', d] ∧ '.' ∉ a ∧ d ≠ '.' := by
  refine ⟨(if q < 0 then ['-'] else []) ++
      natDecimal (halfEven ((if q < 0 then -q else q) * 10) / 10),
    digitChar (halfEven ((if q < 0 then -q else q) * 10)), rfl, ?_,
    digitChar_ne_dot _⟩
  intro hmem
  rcases List.mem_append.mp hmem with h1 | h2
  · by_cases hq : q < 0
    · rw [if_pos hq] at h1
      rw [List.mem_singleton] at h1
      exact absurd h1 (by decide)
    · rw [if_neg hq] at h1
      exact absurd h1 (List.not_mem_nil _)
  · exact natDecimal_no_dot _ h2

theorem replace_strip_agree (a tail : List Char) (d : Char) (hadot : '.' ∉ a)
    (hd : d ≠ '.') (htail : '.' ∉ tail) :
    replaceDot0 ((a ++ ['.', d]) ++ tail) = stripTrailingDot0 (a ++ ['.', d]) ++ tail := by
  have e : (a ++ ['.', d]) ++ tail = a ++ '.' :: d :: tail := by simp
  rw [e, replaceDot0_split a tail d hadot hd htail, stripTrailingDot0_eq a d]
  by_cases h0 : d = '0' <;> simp [h0]

/-- The inner closure of the source:
`strings.Replace(fmt.Sprintf("%.1f %s", filesize, suffix), ".0", "", -1)`. -/
def filesizeFmtRaw (filesize : ℚ) (suffix : String) : String :=
  String.mk (replaceDot0 (formatFixed1 filesize ++ ' ' :: suffix.data))

/-- The threshold chain of `filesizeformat` (`KB = 1<<10` ... `PB = 1<<50`). -/
def filesizeformatVal (size : ℚ) : String :=
  if size < 1024 then filesizeFmtRaw size "bytes"
  else if size < 1048576 then filesizeFmtRaw (size / 1024) "KB"
  else if size < 1073741824 then filesizeFmtRaw (size / 1048576) "MB"
  else if size < 1099511627776 then filesizeFmtRaw (size / 1073741824) "GB"
  else if size < 1125899906842624 then filesizeFmtRaw (size / 1099511627776) "TB"
  else filesizeFmtRaw (size / 1125899906842624) "PB"

/-- The `filesizeformat` helper, translated from the source. -/
def filesizeformat : GoValue → String
  | .int i => filesizeformatVal (i : ℚ)
  | .uint n => filesizeformatVal (n : ℚ)
  | .float q => filesizeformatVal q
  | _ => ""

/-- Formalisation of the claim's description: choose the unit by 1024-based
magnitude thresholds, format the scaled size with one decimal place, strip
a trailing `".0"` from the number, append the unit name. -/
def claimFilesize (size : ℚ) : String :=
  if size < 1024 then
    String.mk (stripTrailingDot0 (formatFixed1 size)) ++ " " ++ "bytes"
  else if size < 1048576 then
    String.mk (stripTrailingDot0 (formatFixed1 (size / 1024))) ++ " " ++ "KB"
  else if size < 1073741824 then
    String.mk (stripTrailingDot0 (formatFixed1 (size / 1048576))) ++ " " ++ "MB"
  else if size < 1099511627776 then
    String.mk (stripTrailingDot0 (formatFixed1 (size / 1073741824))) ++ " " ++ "GB"
  else if size < 1125899906842624 then
    String.mk (stripTrailingDot0 (formatFixed1 (size / 1099511627776))) ++ " " ++ "TB"
  else
    String.mk (stripTrailingDot0 (formatFixed1 (size / 1125899906842624))) ++ " " ++ "PB"

theorem string_append_space (x : List Char) (t : String) :
    String.mk (x ++ ' ' :: t.data) = String.mk x ++ " " ++ t := by
  apply congrArg String.mk
  have e : (" " : String).data = [' '] := rfl
  simp [e]

theorem filesizeFmtRaw_eq (q : ℚ) (suffix : String) (hs : '.' ∉ suffix.data) :
    filesizeFmtRaw q suffix =
      String.mk (stripTrailingDot0 (formatFixed1 q)) ++ " " ++ suffix := by
  obtain ⟨a, d, hform, hadot, hd⟩ := formatFixed1_shape q
  unfold filesizeFmtRaw
  rw [hform]
  have htail : '.' ∉ ' ' :: suffix.data := by
    intro hm
    rcases List.mem_cons.mp hm with h1 | h2
    · exact absurd h1 (by decide)
    · exact hs h2
  have e : (a ++ ['.', d]) ++ ' ' :: suffix.data = a ++ ['.', d] ++ ' ' :: suffix.data := by
    simp
  rw [e, replace_strip_agree a (' ' :: suffix.data) d hadot hd htail]
  rw [string_append_space]

theorem halfEven_ten : halfEven 10 = 10 := by
  unfold halfEven
  rw [Int.floor_ofNat]
  norm_num
  decide

theorem halfEven_fifteen : halfEven 15 = 15 := by
  unfold halfEven
  rw [Int.floor_ofNat]
  norm_num
  decide

theorem halfEven_zero : halfEven 0 = 0 := by
  unfold halfEven
  rw [Int.floor_zero]
  norm_num

theorem formatFixed1_one : formatFixed1 1 = ['1', '.', '0'] := by
  unfold formatFixed1
  simp only [if_neg (show ¬ (1 : ℚ) < 0 by norm_num)]
  rw [show ((1 : ℚ) * 10) = 10 by norm_num, halfEven_ten,
    show (10 : Nat) / 10 = 1 by norm_num, natDecimal_lt 1 (by norm_num)]
  decide

theorem formatFixed1_threehalves : formatFixed1 (3 / 2) = ['1', '.', '5'] := by
  unfold formatFixed1
  simp only [if_neg (show ¬ (3 / 2 : ℚ) < 0 by norm_num)]
  rw [show ((3 / 2 : ℚ) * 10) = 15 by norm_num, halfEven_fifteen,
    show (15 : Nat) / 10 = 1 by norm_num, natDecimal_lt 1 (by norm_num)]
  decide

theorem formatFixed1_zero : formatFixed1 0 = ['0', '.', '0'] := by
  unfold formatFixed1
  simp only [if_neg (show ¬ (0 : ℚ) < 0 by norm_num)]
  rw [show ((0 : ℚ) * 10) = 0 by norm_num, halfEven_zero,
    show (0 : Nat) / 10 = 0 by norm_num, natDecimal_lt 0 (by norm_num)]
  decide

/-- Claim C7: for every value reaching the numeric core (any integer or
float kind), the unit is chosen by the 1024-based thresholds, the scaled
size is formatted with one decimal place and a trailing `".0"` is stripped;
plus the spec's three examples. -/
theorem filesizeformat_spec :
    (∀ q : ℚ, filesizeformatVal q = claimFilesize q) ∧
    (∀ i : Int, filesizeformat (.int i) = claimFilesize (i : ℚ)) ∧
    (∀ n : Nat, filesizeformat (.uint n) = claimFilesize (n : ℚ)) ∧
    (∀ q : ℚ, filesizeformat (.float q) = claimFilesize q) ∧
    filesizeformat (.int 1024) = "1 KB" ∧
    filesizeformat (.int 1536) = "1.5 KB" ∧
    filesizeformat (.int 0) = "0 bytes" := by
  have hmain : ∀ q : ℚ, filesizeformatVal q = claimFilesize q := by
    intro q
    unfold filesizeformatVal claimFilesize
    by_cases h1 : q < 1024
    · simp only [if_pos h1]
      exact filesizeFmtRaw_eq _ _ (by decide)
    · simp only [if_neg h1]
      by_cases h2 : q < 1048576
      · simp only [if_pos h2]
        exact filesizeFmtRaw_eq _ _ (by decide)
      · simp only [if_neg h2]
        by_cases h3 : q < 1073741824
        · simp only [if_pos h3]
          exact filesizeFmtRaw_eq _ _ (by decide)
        · simp only [if_neg h3]
          by_cases h4 : q < 1099511627776
          · simp only [if_pos h4]
            exact filesizeFmtRaw_eq _ _ (by decide)
          · simp only [if_neg h4]
            by_cases h5 : q < 1125899906842624
            · simp only [if_pos h5]
              exact filesizeFmtRaw_eq _ _ (by decide)
            · simp only [if_neg h5]
              exact filesizeFmtRaw_eq _ _ (by decide)
  have ex1024 : filesizeformatVal 1024 = "1 KB" := by
    unfold filesizeformatVal
    rw [if_neg (show ¬ (1024 : ℚ) < 1024 by norm_num),
      if_pos (show (1024 : ℚ) < 1048576 by norm_num),
      show (1024 : ℚ) / 1024 = 1 by norm_num]
    unfold filesizeFmtRaw
    rw [formatFixed1_one]
    decide
  have ex1536 : filesizeformatVal 1536 = "1.5 KB" := by
    unfold filesizeformatVal
    rw [if_neg (show ¬ (1536 : ℚ) < 1024 by norm_num),
      if_pos (show (1536 : ℚ) < 1048576 by norm_num),
      show (1536 : ℚ) / 1024 = 3 / 2 by norm_num]
    unfold filesizeFmtRaw
    rw [formatFixed1_threehalves]
    decide
  have ex0 : filesizeformatVal 0 = "0 bytes" := by
    unfold filesizeformatVal
    rw [if_pos (show (0 : ℚ) < 1024 by norm_num)]
    unfold filesizeFmtRaw
    rw [formatFixed1_zero]
    decide
  refine ⟨hmain, fun i => hmain _, fun n => hmain _, fun q => hmain q, ?_, ?_, ?_⟩
  · rw [show filesizeformat (.int 1024) = filesizeformatVal ((1024 : Int) : ℚ) from rfl,
      show ((1024 : Int) : ℚ) = 1024 by norm_num, ex1024]
  · rw [show filesizeformat (.int 1536) = filesizeformatVal ((1536 : Int) : ℚ) from rfl,
      show ((1536 : Int) : ℚ) = 1536 by norm_num, ex1536]
  · rw [show filesizeformat (.int 0) = filesizeformatVal ((0 : Int) : ℚ) from rfl,
      show ((0 : Int) : ℚ) = 0 by norm_num, ex0]

/-! ## Fault-suppression discipline of the catalog (claim C1)

Every helper body in `GtfTextFuncMap` is examined for its panic barrier.
Per the Go specification, `recover` stops an ongoing panic only when it is
called *by* a deferred function of the panicking frame; the catalog's
`recovery` wrapper (`func recovery() { recover() }`) used as
`defer recovery()` therefore suppresses panics, while `toValue`'s
`defer recover()` defers `recover` itself — that call returns `nil` and the
panic keeps unwinding — and `markdown2` and `striptags` install no deferred
call at all. -/

/-- The kind of panic barrier a helper body installs. -/
inductive RecoveryKind where
  | recoveryWrapped
  | recoverDirect
  | unprotected
deriving DecidableEq

/-- Whether a runtime fault raised inside the helper body is stopped before
it reaches the caller: only an effective deferred `recover` (the
`defer recovery()` pattern) does that. -/
def suppressesFaults : RecoveryKind → Bool
  | .recoveryWrapped => true
  | .recoverDirect => false
  | .unprotected => false

/-- The catalog, in source order, with the panic barrier each helper body
installs (read off `gtf.go` line by line). -/
def helperRecoveryTable : List (String × RecoveryKind) :=
  [("toValue", .recoverDirect),
   ("timeIn", .recoveryWrapped),
   ("funcMap", .recoveryWrapped),
   ("asQuery", .recoveryWrapped),
   ("asURL", .recoveryWrapped),
   ("isChecked", .recoveryWrapped),
   ("objectId", .recoveryWrapped),
   ("parseUrl", .recoveryWrapped),
   ("duration", .recoveryWrapped),
   ("existobjectid", .recoveryWrapped),
   ("sameobjectid", .recoveryWrapped),
   ("minus", .recoveryWrapped),
   ("delQuery", .recoveryWrapped),
   ("setQuery", .recoveryWrapped),
   ("getQuery", .recoveryWrapped),
   ("repeat", .recoveryWrapped),
   ("getInt", .recoveryWrapped),
   ("istrue", .recoveryWrapped),
   ("humanizeSize", .recoveryWrapped),
   ("isblank", .recoveryWrapped),
   ("renderTime", .recoveryWrapped),
   ("markdown2", .unprotected),
   ("markdown", .recoveryWrapped),
   ("timeago", .recoveryWrapped),
   ("asHTMLAttr", .recoveryWrapped),
   ("asCSS", .recoveryWrapped),
   ("asHTML", .recoveryWrapped),
   ("asJS", .recoveryWrapped),
   ("existin", .recoveryWrapped),
   ("tojson", .recoveryWrapped),
   ("gettitle", .recoveryWrapped),
   ("replace", .recoveryWrapped),
   ("findreplace", .recoveryWrapped),
   ("title", .recoveryWrapped),
   ("default", .recoveryWrapped),
   ("length", .recoveryWrapped),
   ("lower", .recoveryWrapped),
   ("upper", .recoveryWrapped),
   ("truncatechars", .recoveryWrapped),
   ("urlencode", .recoveryWrapped),
   ("wordcount", .recoveryWrapped),
   ("divisibleby", .recoveryWrapped),
   ("lengthis", .recoveryWrapped),
   ("trim", .recoveryWrapped),
   ("capfirst", .recoveryWrapped),
   ("pluralize", .recoveryWrapped),
   ("yesno", .recoveryWrapped),
   ("rjust", .recoveryWrapped),
   ("ljust", .recoveryWrapped),
   ("center", .recoveryWrapped),
   ("filesizeformat", .recoveryWrapped),
   ("apnumber", .recoveryWrapped),
   ("intcomma", .recoveryWrapped),
   ("ordinal", .recoveryWrapped),
   ("first", .recoveryWrapped),
   ("last", .recoveryWrapped),
   ("join", .recoveryWrapped),
   ("slice", .recoveryWrapped),
   ("random", .recoveryWrapped),
   ("randomintrange", .recoveryWrapped),
   ("striptags", .unprotected)]

/-- Counterexample to claim C1: `markdown2` is in the catalog with no panic
barrier at all, so a fault raised while it runs (its body calls an external
Markdown parser) propagates to the caller; the claim that every helper
suppresses every runtime fault is false of the code. -/
theorem catalog_fault_suppression_cex :
    ("markdown2", RecoveryKind.unprotected) ∈ helperRecoveryTable ∧
    suppressesFaults RecoveryKind.unprotected = false ∧
    ¬ (∀ p ∈ helperRecoveryTable, suppressesFaults p.2 = true) := by
  refine ⟨by decide, rfl, fun h => ?_⟩
  have := h ("markdown2", RecoveryKind.unprotected) (by decide)
  simp [suppressesFaults] at this

/-- Amended claim C1: every helper except `toValue` (which defers `recover`
directly, which does not stop a panic), `markdown2` and `striptags` (which
install no deferred call) wraps its body with `defer recovery()` and hence
suppresses any runtime fault raised during its execution. -/
theorem catalog_fault_suppression_amended :
    ∀ p ∈ helperRecoveryTable,
      p.1 ≠ "toValue" → p.1 ≠ "markdown2" → p.1 ≠ "striptags" →
      suppressesFaults p.2 = true := by
  decide

theorem catalog_fault_suppression_amended_witness :
    ("timeago", RecoveryKind.recoveryWrapped) ∈ helperRecoveryTable ∧
    suppressesFaults RecoveryKind.recoveryWrapped = true :=
  ⟨by decide,
    catalog_fault_suppression_amended ("timeago", RecoveryKind.recoveryWrapped)
      (by decide) (by decide) (by decide) (by decide)⟩

/-! ## Time helpers (claims C2 and C10)

`time.Time.Format` is an external collaborator; it is modelled as an
injective rendering of the layout string, the instant and the location —
exactly the precision at which the claims speak about it. -/

/-- Model of Go `time.Time.Format`: a rendering determined by (and only
by) the layout, the absolute instant, and the location whose rules the
wall-clock fields are derived from. -/
def goTimeFormat (layout : String) (t : GoTime) : String :=
  layout ++ "|" ++ toString t.instant ++ "|" ++ t.locName

/-- The `timeIn` helper, translated from the source:
zero time yields `""`; an empty location name is replaced by
`"Asia/Shanghai"`; `time.LoadLocation` (modelled by the ambient `load`
function, `none` = error) converts the time only on success; the result is
always formatted with layout `"2006-01-02 15:04 -07"`.  `t.In(loc)` keeps
the instant and replaces the location. -/
def timeIn (load : String → Option String) (t : GoTime) (locName : String) : String :=
  if t.instant = 0 then ""
  else
    let locName' := if locName = "" then "Asia/Shanghai" else locName
    match load locName' with
    | some loc => goTimeFormat "2006-01-02 15:04 -07" (GoTime.mk t.instant loc)
    | none => goTimeFormat "2006-01-02 15:04 -07" t

/-- The `duration` helper, translated from the source: it returns
`stop.Sub(start).Seconds()`, a `float64` number of seconds (modelled as the
exact rational), for every pair of timestamps — it never returns a string. -/
def duration (start stop : GoTime) : ℚ :=
  ((stop.instant - start.instant : Int) : ℚ) / 1000000000

/-- Go `fmt.Sprintf("%.2f", q)`: sign, integer part, two fractional digits
of the half-to-even rounded value. -/
def formatFixed2 (q : ℚ) : List Char :=
  let m := halfEven ((if q < 0 then -q else q) * 100)
  ((if q < 0 then ['-'] else []) ++ natDecimal (m / 100)) ++
    ['.', digitChar (m / 10), digitChar m]

/-- The `renderTime` helper, translated from the source (`now` models the
ambient `time.Now()` instant): a `time.Time` input is rendered as the
elapsed milliseconds `fmt.Sprintf("%.2fms", ...)`; every other dynamic
type returns `""`. -/
def renderTime (now : Int) (value : GoValue) : String :=
  match value with
  | .timeVal t => String.mk (formatFixed2 (((now - t.instant : Int) : ℚ) / 1000000)) ++ "ms"
  | _ => ""

/-- Counterexample to claim C2: with both timestamps zero-valued,
`duration` returns the float64 `0`, not the empty string — as a template
value a float is never the empty string, so the claim that `duration`
returns `""` on zero-valued timestamps is false of the code. -/
theorem time_helpers_empty_cex :
    duration (GoTime.mk 0 "UTC") (GoTime.mk 0 "UTC") = 0 ∧
    GoValue.float (duration (GoTime.mk 0 "UTC") (GoTime.mk 0 "UTC")) ≠
      GoValue.str "" := by
  constructor
  · unfold duration
    norm_num
  · intro h
    exact GoValue.noConfusion h

/-- Amended claim C2: `renderTime` returns `""` when its input is not of
timestamp kind; `timeIn` returns `""` when its input timestamp is the zero
value; `duration` returns a float64 seconds difference — never an empty
string — whatever the timestamps. -/
theorem time_helpers_empty_amended :
    (∀ (now : Int) (v : GoValue), isTimeKind v = false → renderTime now v = "") ∧
    (∀ (load : String → Option String) (t : GoTime) (loc : String),
      t.instant = 0 → timeIn load t loc = "") ∧
    (∀ t1 t2 : GoTime, GoValue.float (duration t1 t2) ≠ GoValue.str "") := by
  refine ⟨fun now v hv => ?_, fun load t loc h => ?_, fun t1 t2 h => ?_⟩
  · cases v <;> simp_all [renderTime, isTimeKind]
  · simp [timeIn, h]
  · exact GoValue.noConfusion h

theorem time_helpers_empty_amended_witness :
    (isTimeKind (.str "now") = false ∧ renderTime 0 (.str "now") = "") ∧
    ((GoTime.mk 0 "UTC").instant = 0 ∧
      timeIn (fun _ => none) (GoTime.mk 0 "UTC") "America/New_York" = "") :=
  ⟨⟨by decide, time_helpers_empty_amended.1 0 (.str "now") (by decide)⟩,
    ⟨rfl, time_helpers_empty_amended.2.1 (fun _ => none) (GoTime.mk 0 "UTC")
      "America/New_York" rfl⟩⟩

/-- Claim C10: for a non-zero timestamp, an empty location name means the
time is converted to `"Asia/Shanghai"` (when that location loads, which is
what `time.LoadLocation` does whenever the zone database is present), and
an unloadable location name leaves the time unconverted in its original
location; both paths format with layout `"2006-01-02 15:04 -07"` and
report no error. -/
theorem timeIn_location_fallback :
    ∀ (load : String → Option String) (t : GoTime) (loc : String),
      t.instant ≠ 0 →
      ((load "Asia/Shanghai" = some "Asia/Shanghai" →
        timeIn load t "" =
          goTimeFormat "2006-01-02 15:04 -07" (GoTime.mk t.instant "Asia/Shanghai")) ∧
       (loc ≠ "" → load loc = none →
        timeIn load t loc = goTimeFormat "2006-01-02 15:04 -07" t)) := by
  intro load t loc hnz
  constructor
  · intro hload
    simp [timeIn, hnz, hload]
  · intro hloc hload
    simp [timeIn, hnz, hloc, hload]

theorem timeIn_location_fallback_witness :
    ((GoTime.mk 99 "UTC").instant ≠ 0 ∧
      (fun n => if n = "Asia/Shanghai" then some "Asia/Shanghai" else none)
          "Asia/Shanghai" = some "Asia/Shanghai" ∧
      timeIn (fun n => if n = "Asia/Shanghai" then some "Asia/Shanghai" else none)
          (GoTime.mk 99 "UTC") "" =
        goTimeFormat "2006-01-02 15:04 -07" (GoTime.mk 99 "Asia/Shanghai")) ∧
    ("Nowhere/City" ≠ "" ∧
      (fun n => if n = "Asia/Shanghai" then some "Asia/Shanghai" else none)
          "Nowhere/City" = none ∧
      timeIn (fun n => if n = "Asia/Shanghai" then some "Asia/Shanghai" else none)
          (GoTime.mk 99 "UTC") "Nowhere/City" =
        goTimeFormat "2006-01-02 15:04 -07" (GoTime.mk 99 "UTC")) :=
  ⟨⟨by decide, by decide,
      (timeIn_location_fallback
        (fun n => if n = "Asia/Shanghai" then some "Asia/Shanghai" else none)
        (GoTime.mk 99 "UTC") "Nowhere/City" (by decide)).1 (by decide)⟩,
    ⟨by decide, by decide,
      (timeIn_location_fallback
        (fun n => if n = "Asia/Shanghai" then some "Asia/Shanghai" else none)
        (GoTime.mk 99 "UTC") "Nowhere/City" (by decide)).2 (by decide) (by decide)⟩⟩

/-! ## Registration operations (claim C9)

Source (`gtf.go`): `Inject` iterates over the catalog and inserts an entry
into the caller's table only when the name is absent; `ForceInject` inserts
every entry unconditionally.  A Go map is modelled as a function
`String → Option FuncImpl`; the iteration order of the range loop is
irrelevant because each step touches only its own key. -/

/-- A function value held in a table: either the catalog implementation
registered under a name, or some caller-owned implementation. -/
inductive FuncImpl where
  | gtf : String → FuncImpl
  | caller : Nat → FuncImpl
deriving DecidableEq

/-- A caller-supplied function table (a Go `map[string]interface{}`). -/
def FuncTable : Type := String → Option FuncImpl

/-- `funcs[k] = v` on a table. -/
def tableSet (t : FuncTable) (k : String) (v : FuncImpl) : FuncTable :=
  fun q => if q = k then some v else t q

/-- One iteration of `Inject`'s range loop:
`if _, ok := funcs[k]; !ok { funcs[k] = v }`. -/
def injectStep (t : FuncTable) (kv : String × FuncImpl) : FuncTable :=
  if (t kv.1).isSome then t else tableSet t kv.1 kv.2

/-- One iteration of `ForceInject`'s range loop: `funcs[k] = v`. -/
def forceStep (t : FuncTable) (kv : String × FuncImpl) : FuncTable :=
  tableSet t kv.1 kv.2

def injectList (l : List (String × FuncImpl)) (t : FuncTable) : FuncTable :=
  l.foldl injectStep t

def forceList (l : List (String × FuncImpl)) (t : FuncTable) : FuncTable :=
  l.foldl forceStep t

/-- The catalog names, in source order. -/
def catalogNames : List String := helperRecoveryTable.map Prod.fst

/-- The catalog as the entry list that the registration loops range over. -/
def gtfEntries : List (String × FuncImpl) :=
  catalogNames.map (fun n => (n, FuncImpl.gtf n))

/-- `gtf.Inject`, translated from the source. -/
def Inject (funcs : FuncTable) : FuncTable :=
  injectList gtfEntries funcs

/-- `gtf.ForceInject`, translated from the source. -/
def ForceInject (funcs : FuncTable) : FuncTable :=
  forceList gtfEntries funcs

theorem injectList_preserves (l : List (String × FuncImpl)) (t : FuncTable)
    (k : String) (v : FuncImpl) (h : t k = some v) : injectList l t k = some v := by
  induction l generalizing t with
  | nil => exact h
  | cons kv rest ih =>
    apply ih
    unfold injectStep
    by_cases hsome : (t kv.1).isSome
    · simp [hsome, h]
    · simp only [hsome, ite_false]
      unfold tableSet
      by_cases hk : k = kv.1
      · subst hk
        rw [h] at hsome
        simp at hsome
      · simp [hk, h]

theorem injectList_notmem (l : List (String × FuncImpl)) (t : FuncTable)
    (k : String) (h : k ∉ l.map Prod.fst) : injectList l t k = t k := by
  induction l generalizing t with
  | nil => rfl
  | cons kv rest ih =>
    have hk : k ≠ kv.1 := by
      intro he
      exact h (by simp [he])
    have hrest : k ∉ rest.map Prod.fst := by
      intro hm
      exact h (by simp [hm])
    rw [injectList, List.foldl_cons, ← injectList]
    rw [ih _ hrest]
    unfold injectStep
    by_cases hsome : (t kv.1).isSome
    · simp [hsome]
    · simp only [hsome, ite_false]
      unfold tableSet
      simp [hk]

theorem injectList_inserts (l : List (String × FuncImpl)) (t : FuncTable)
    (k : String) (v : FuncImpl) (hmem : k ∈ l.map Prod.fst) (habs : t k = none)
    (huniq : ∀ p ∈ l, p.1 = k → p.2 = v) : injectList l t k = some v := by
  induction l generalizing t with
  | nil => simp at hmem
  | cons kv rest ih =>
    rw [injectList, List.foldl_cons, ← injectList]
    by_cases hk : k = kv.1
    · have hv : kv.2 = v := huniq kv (List.mem_cons_self _ _) hk.symm
      have hstep : injectStep t kv k = some v := by
        unfold injectStep
        subst hk
        rw [habs]
        simp [tableSet, hv]
      exact injectList_preserves rest _ k v hstep
    · have hrest : k ∈ rest.map Prod.fst := by
        rcases List.mem_map.mp hmem with ⟨p, hp, hfst⟩
        rcases List.mem_cons.mp hp with h1 | h2
        · exact absurd (hfst ▸ congrArg Prod.fst h1) hk
        · exact List.mem_map.mpr ⟨p, h2, hfst⟩
      have habs2 : injectStep t kv k = none := by
        unfold injectStep
        by_cases hsome : (t kv.1).isSome
        · simp [hsome, habs]
        · simp only [hsome, ite_false]
          unfold tableSet
          simp [hk, habs]
      exact ih _ hrest habs2 fun p hp he => huniq p (List.mem_cons_of_mem _ hp) he

theorem forceList_notmem (l : List (String × FuncImpl)) (t : FuncTable)
    (k : String) (h : k ∉ l.map Prod.fst) : forceList l t k = t k := by
  induction l generalizing t with
  | nil => rfl
  | cons kv rest ih =>
    have hk : k ≠ kv.1 := by
      intro he
      exact h (by simp [he])
    have hrest : k ∉ rest.map Prod.fst := by
      intro hm
      exact h (by simp [hm])
    rw [forceList, List.foldl_cons, ← forceList]
    rw [ih _ hrest]
    unfold forceStep tableSet
    simp [hk]

theorem forceList_inserts (l : List (String × FuncImpl)) (t : FuncTable)
    (k : String) (v : FuncImpl) (hmem : k ∈ l.map Prod.fst)
    (huniq : ∀ p ∈ l, p.1 = k → p.2 = v) : forceList l t k = some v := by
  induction l generalizing t with
  | nil => simp at hmem
  | cons kv rest ih =>
    rw [forceList, List.foldl_cons, ← forceList]
    by_cases hrest : k ∈ rest.map Prod.fst
    · exact ih _ hrest fun p hp he => huniq p (List.mem_cons_of_mem _ hp) he
    · have hk : k = kv.1 := by
        rcases List.mem_map.mp hmem with ⟨p, hp, hfst⟩
        rcases List.mem_cons.mp hp with h1 | h2
        · exact hfst ▸ congrArg Prod.fst h1
        · exact absurd (List.mem_map.mpr ⟨p, h2, hfst⟩) hrest
      rw [forceList_notmem rest _ k hrest]
      have hv : kv.2 = v := huniq kv (List.mem_cons_self _ _) hk.symm
      unfold forceStep tableSet
      simp [hk, hv]

theorem gtfEntries_uniq (k : String) :
    ∀ p ∈ gtfEntries, p.1 = k → p.2 = FuncImpl.gtf k := by
  intro p hp he
  rcases List.mem_map.mp hp with ⟨n, _, rfl⟩
  simp only at he
  rw [← he]

theorem gtfEntries_names : gtfEntries.map Prod.fst = catalogNames := by
  unfold gtfEntries
  rw [List.map_map]
  rfl

/-- Claim C9: for every target table and name, `Inject` fills an absent
catalog name with the catalog implementation, never changes a binding that
is already present, and never touches names outside the catalog;
`ForceInject` sets every catalog name to the catalog implementation
unconditionally and also never touches names outside the catalog. -/
theorem inject_forceInject_spec :
    ∀ (funcs : FuncTable) (k : String),
      (funcs k = none → k ∈ catalogNames → Inject funcs k = some (FuncImpl.gtf k)) ∧
      (∀ v, funcs k = some v → Inject funcs k = some v) ∧
      (k ∉ catalogNames → Inject funcs k = funcs k) ∧
      (k ∈ catalogNames → ForceInject funcs k = some (FuncImpl.gtf k)) ∧
      (k ∉ catalogNames → ForceInject funcs k = funcs k) := by
  intro funcs k
  refine ⟨fun habs hmem => ?_, fun v hv => ?_, fun hni => ?_, fun hmem => ?_,
    fun hni => ?_⟩
  · exact injectList_inserts _ _ _ _ (gtfEntries_names ▸ hmem) habs (gtfEntries_uniq k)
  · exact injectList_preserves _ _ _ _ hv
  · exact injectList_notmem _ _ _ (gtfEntries_names ▸ hni)
  · exact forceList_inserts _ _ _ _ (gtfEntries_names ▸ hmem) (gtfEntries_uniq k)
  · exact forceList_notmem _ _ _ (gtfEntries_names ▸ hni)

/-- A sample caller table binding `"upper"` to a caller implementation. -/
def exampleTable : FuncTable :=
  fun k => if k = "upper" then some (FuncImpl.caller 0) else none

theorem inject_forceInject_spec_witness :
    (exampleTable "upper" = some (FuncImpl.caller 0) ∧
      Inject exampleTable "upper" = some (FuncImpl.caller 0)) ∧
    (exampleTable "lower" = none ∧ "lower" ∈ catalogNames ∧
      Inject exampleTable "lower" = some (FuncImpl.gtf "lower")) ∧
    ("upper" ∈ catalogNames ∧
      ForceInject exampleTable "upper" = some (FuncImpl.gtf "upper")) ∧
    ("notagtfname" ∉ catalogNames ∧
      Inject exampleTable "notagtfname" = exampleTable "notagtfname" ∧
      ForceInject exampleTable "notagtfname" = exampleTable "notagtfname") :=
  ⟨⟨rfl, (inject_forceInject_spec exampleTable "upper").2.1 _ rfl⟩,
    ⟨rfl, by decide,
      (inject_forceInject_spec exampleTable "lower").1 rfl (by decide)⟩,
    ⟨by decide, (inject_forceInject_spec exampleTable "upper").2.2.2.1 (by decide)⟩,
    ⟨by decide, (inject_forceInject_spec exampleTable "notagtfname").2.2.1 (by decide),
      (inject_forceInject_spec exampleTable "notagtfname").2.2.2.2 (by decide)⟩⟩
